import Mathlib

/-
Verification development for the xftcpp sharding core.

This file gives a shallow embedding, in Lean 4, of the sharding layer of the
xftcpp repository and proves properties of that embedding:

  * ShardingParam and its MinorToMajor mesh description
    (source: src/xftcpp/src/sharding_params.cc and sharding_params.h),
  * DeviceList with its addressable-device cache and id fingerprint
    (source: src/xftcpp/src/device_list.cpp and device_list.h),
  * HloSharding with its fast-path and slow-path IndexDomains computation
    and its Disassemble operation
    (source: src/xftcpp/src/xla_shardings.cpp and sharding.h).

Conventions of the embedding:

  * C++ int and int64_t arithmetic is modeled on Int; C++ division and
    remainder truncate toward zero, so they are rendered as Int.tdiv and
    Int.tmod.
  * Fallible operations return CppResult, which distinguishes a normal
    value, a recoverable error status carrying its message, and the kinds
    of undefined behavior the C++ sources can reach (an out-of-bounds
    element access, a division or remainder by zero, and a failed runtime
    CHECK or a dereference of a disengaged optional).  Undefined behavior
    is a designated branch of the total embedding, never a silently
    defined value.
  * Queries answered by the external XLA tiling specification (the opaque
    collaborator that TiledSharding wraps) have no implementation under
    src/; those definitions carry a doc comment starting with the words
    Modelled from the spec and follow the description of the external
    interface in the specification.
-/

namespace xftcpp

/-- Result type used by the embedding of the C++ sources.  The ok and err
constructors model absl status values; the three ub constructors are the
designated branches for behavior that is undefined in the C++ source: an
out-of-bounds element access, a division or remainder by zero, and a failed
CHECK or a dereference of a disengaged optional. -/
inductive CppResult (α : Type) where
  | ok (val : α)
  | err (msg : String)
  | ubOutOfBounds
  | ubDivZero
  | ubCheckFail
deriving DecidableEq

-- ============================================================================
-- ShardingParam (source: sharding_params.cc / sharding_params.h)
-- ============================================================================

/-- Embedding of ShardingParam::MinorToMajor: a traversal order over the mesh
axes together with the size of each mesh axis.  Entries are C++ int, modeled
as Int. -/
structure MinorToMajor where
  permutation : List Int
  axis_sizes : List Int
deriving DecidableEq

/-- Embedding of ShardingParam: per-dimension shard counts plus the mesh
traversal order. -/
structure ShardingParam where
  dim_shards : List Int
  minor_to_major : MinorToMajor
deriving DecidableEq

/-- Embedding of MinorToMajor::verify (sharding_params.cc lines 162-190):
sizes must match and be non-empty, the permutation must have no duplicates,
and every permutation entry must be a valid index into axis_sizes.  The
check runs in this order and reports the first failure. -/
def MinorToMajor.verify (m : MinorToMajor) : Except String Unit :=
  if m.permutation.length ≠ m.axis_sizes.length ∨ m.axis_sizes = [] then
    .error "Expect same non-zero size for permutation and axis_sizes."
  else if ¬ m.permutation.Nodup then
    .error "permutation has duplicate values"
  else
    match m.permutation.find? (fun i => decide (i < 0 ∨ (m.axis_sizes.length : Int) ≤ i)) with
    | some i => .error ("Out of range axis " ++ toString i ++ " to the mesh")
    | none => .ok ()

/-- Embedding of MinorToMajor::NumDevices (sharding_params.cc lines 229-235):
the product of the axis sizes, accumulated left to right in a C++ int. -/
def MinorToMajor.NumDevices (m : MinorToMajor) : Int :=
  m.axis_sizes.foldl (fun a b => a * b) 1

/-- Embedding of ShardingParam::NumDevices (sharding_params.cc lines 483-489):
the product of the mesh axis sizes. -/
def ShardingParam.NumDevices (sp : ShardingParam) : Int :=
  sp.minor_to_major.axis_sizes.foldl (fun a b => a * b) 1

/-- Cumulative sizes computed at the start of MinorToMajor::ToDeviceList
(sharding_params.cc lines 212-218): position i holds the product of the
axis sizes strictly before axis i. -/
def cumSizesAux : List Int → Int → List Int
  | [], _ => []
  | s :: rest, acc => acc :: cumSizesAux rest (acc * s)

/-- Cumulative axis sizes of a MinorToMajor, starting from 1. -/
def MinorToMajor.cumSizes (m : MinorToMajor) : List Int :=
  cumSizesAux m.axis_sizes 1

/-- Product of a list of C++ int values, accumulated left to right from 1;
the form shared by NumDevices and the cumulative-size bookkeeping. -/
def prodInt (l : List Int) : Int := l.foldl (fun a b => a * b) 1

/-- Descending list of the axis indices k-1, k-2, ..., 0 as Int values; the
canonical reordering used to analyze the mesh linearization. -/
def descListInt : Nat → List Int
  | 0 => []
  | k + 1 => (k : Int) :: descListInt k

/-- Embedding of PopulateDevices (sharding_params.cc lines 115-135).  The C++
function processes the permutation from its back (most-major axis) inward,
so this embedding recurses over the reversed permutation.  The C++ base case
appends device ids when one axis remains; the base case below returns the
singleton of the accumulated base, which agrees with the source on every
non-empty axis list.  A negative axis size makes the C++ loop run zero
times, which the Int.toNat conversion reproduces.  A negative permutation
entry would be an out-of-bounds C++ access; the embedding reads index zero
there, and MinorToMajor.verify rules that case out for every input the
theorems below consider. -/
def PopulateDevicesRev (axis_sizes cum_sizes : List Int) : List Int → Int → List Int
  | [], base => [base]
  | m :: rest, base =>
      (List.range (axis_sizes.getD m.toNat 0).toNat).flatMap
        (fun i => PopulateDevicesRev axis_sizes cum_sizes rest
          (base + (i : Int) * cum_sizes.getD m.toNat 0))

/-- Embedding of MinorToMajor::ToDeviceList (sharding_params.cc lines
201-222): linearizes the mesh into a flat list of device positions by
recursive expansion of the permutation from major to minor.  The C++
function has undefined behavior on an empty permutation (it reads the back
of an empty vector); verify rejects that input, and the embedding returns
the singleton list there. -/
def MinorToMajor.ToDeviceList (m : MinorToMajor) : List Int :=
  PopulateDevicesRev m.axis_sizes m.cumSizes m.permutation.reverse 0

/-- Inner while loop of ShardingParam::verify (sharding_params.cc lines
363-367): repeatedly divide the accumulated capacity by the current dim
shard while it divides evenly, advancing past the consumed entries.  The
loop condition computes cum_size modulo the current entry, so an entry equal
to zero is a remainder by zero: undefined behavior in C++, the designated
ubDivZero branch here. -/
def consumeDims (cum : Int) : List Int → CppResult (Int × List Int)
  | [] => .ok (cum, [])
  | x :: rest =>
      if x = 0 then .ubDivZero
      else if cum.tmod x = 0 then consumeDims (cum.tdiv x) rest
      else .ok (cum, x :: rest)

/-- Skipping of unsharded dimensions (dim shard equal to 1), as done by the
while loops at sharding_params.cc lines 350-352 and 371-373. -/
def dropOnes (l : List Int) : List Int :=
  l.dropWhile (fun x => x == 1)

/-- Outer loop of ShardingParam::verify (sharding_params.cc lines 344-368)
over the permutation entries: skip unsharded dims, break once all dims are
consumed, multiply the capacity by the axis size selected by the entry, and
run the inner consuming loop.  A permutation entry outside the axis list
would be an out-of-bounds C++ access; MinorToMajor::verify has already ruled
that out whenever this loop runs in the source. -/
def verifyLoop (axes : List Int) : List Int → Int → List Int → CppResult (Int × List Int)
  | [], cum, s => .ok (cum, s)
  | idx :: prest, cum, s =>
      let s1 := dropOnes s
      if s1.isEmpty then .ok (cum, s1)
      else
        if 0 ≤ idx ∧ idx.toNat < axes.length then
          match consumeDims (cum * axes.getD idx.toNat 0) s1 with
          | .ok (cum2, s2) => verifyLoop axes prest cum2 s2
          | .err e => .err e
          | .ubOutOfBounds => .ubOutOfBounds
          | .ubDivZero => .ubDivZero
          | .ubCheckFail => .ubCheckFail
        else .ubOutOfBounds

/-- Embedding of ShardingParam::verify (sharding_params.cc lines 304-384):
first verify the MinorToMajor structure, then greedily distribute the dim
shards over the mesh capacity in permutation order; the sharding is valid
iff every dim shard is consumed. -/
def ShardingParam.verify (sp : ShardingParam) : CppResult Unit :=
  match sp.minor_to_major.verify with
  | .error e => .err e
  | .ok _ =>
      match verifyLoop sp.minor_to_major.axis_sizes sp.minor_to_major.permutation
          1 sp.dim_shards with
      | .ok (_, s) =>
          if (dropOnes s).isEmpty then .ok ()
          else .err "Cannot shard the dims to the mesh"
      | .err e => .err e
      | .ubOutOfBounds => .ubOutOfBounds
      | .ubDivZero => .ubDivZero
      | .ubCheckFail => .ubCheckFail

/-- Embedding of ShardingParam::GlobalShapeFromLocalShape (sharding_params.cc
lines 426-448): after a rank check, the global shape is the elementwise
product of the dim shards and the local shape, in that operand order. -/
def ShardingParam.GlobalShapeFromLocalShape (sp : ShardingParam)
    (local_shape : List Int) : Except String (List Int) :=
  if local_shape.length ≠ sp.dim_shards.length then
    .error "Rank of local tensor differs from rank of dim_shards."
  else
    .ok (List.zipWith (fun d l => d * l) sp.dim_shards local_shape)

/-- Error message built by ShardingParam::LocalShapeFromGlobalShape for a
dimension whose size the shard count does not divide; it names the offending
dimension index. -/
def localShapeErrMsg (global_shape : List Int) (num_shard : Int) (i : Nat) : String :=
  "Global shape is not divisible by the number of shards in dimension "
    ++ toString i ++ ". Global shape: ["
    ++ String.intercalate "," (global_shape.map toString)
    ++ "], number of shards: " ++ toString num_shard ++ "."

/-- Loop of ShardingParam::LocalShapeFromGlobalShape (sharding_params.cc
lines 466-474), indexed by the position i into the global shape.  The C++
loop runs over the dim shards and reads global_shape at the same index with
no rank check, so a global shape shorter than dim_shards is an
out-of-bounds read (ubOutOfBounds) and a dim shard equal to zero is a
remainder by zero (ubDivZero). -/
def localFromGlobalLoop (global_shape : List Int) :
    List Int → Nat → List Int → CppResult (List Int)
  | [], _, acc => .ok acc.reverse
  | d :: rest, i, acc =>
      if i < global_shape.length then
        let g := global_shape.getD i 0
        if d = 0 then .ubDivZero
        else if g.tmod d ≠ 0 then .err (localShapeErrMsg global_shape d i)
        else localFromGlobalLoop global_shape rest (i + 1) (g.tdiv d :: acc)
      else .ubOutOfBounds

/-- Embedding of ShardingParam::LocalShapeFromGlobalShape (sharding_params.cc
lines 450-477): elementwise exact division of the global shape by the dim
shards, failing with a message naming the offending dimension when a
dimension does not divide evenly. -/
def ShardingParam.LocalShapeFromGlobalShape (sp : ShardingParam)
    (global_shape : List Int) : CppResult (List Int) :=
  localFromGlobalLoop global_shape sp.dim_shards 0 []

-- ============================================================================
-- Device and DeviceList (source: device.h, device_list.cpp / device_list.h)
-- ============================================================================

/-- Embedding of Device (device.h): the fields the sharding layer reads.  The
id is globally unique; addressable models IsAddressable, which is whether
the underlying PJRT device pointer is non-null. -/
structure Device where
  id : Int
  kind : String
  process_index : Int
  addressable : Bool
deriving DecidableEq

/-- Placeholder device used for element accesses that are guarded by an index
bound in the C++ sources. -/
def junkDevice : Device := ⟨0, "", 0, false⟩

/-- Embedding of DeviceList (device_list.h): an immutable ordered sequence of
device references, duplicates allowed. -/
structure DeviceList where
  devices : List Device
deriving DecidableEq

/-- Result of DeviceList::AddressableDeviceList, which in C++ returns a
pointer: either the receiver itself (pointer identity with this) or the
lazily cached filtered list. -/
inductive ADLResult where
  | self
  | cached (devs : List Device)
deriving DecidableEq

/-- Embedding of DeviceList::AddressableDeviceList (device_list.cpp lines
66-99).  The mutable cache field addressable_device_list_ is made explicit:
the function takes the current cache contents and returns the result
together with the new cache contents.  When every device is addressable the
receiver itself is returned and the cache is untouched; otherwise the cached
filtered list is returned, computing and storing it on first use. -/
def DeviceList.AddressableDeviceList (dl : DeviceList)
    (cache : Option (List Device)) : ADLResult × Option (List Device) :=
  if dl.devices.all (fun d => d.addressable) then
    (.self, cache)
  else
    match cache with
    | some c => (.cached c, some c)
    | none =>
        let filtered := dl.devices.filter (fun d => d.addressable)
        (.cached filtered, some filtered)

/-- Embedding of DeviceList::IsFullyAddressable (device_list.h line 55): true
iff AddressableDeviceList returns the receiver itself (the C++ pointer
comparison with this). -/
def DeviceList.IsFullyAddressable (dl : DeviceList)
    (cache : Option (List Device)) : Bool :=
  (dl.AddressableDeviceList cache).1 == ADLResult.self

/-- Fixed HighwayHash key used by FingerprintPrinter (device_list.cpp lines
46-51); a compile-time constant, identical in every process. -/
def kDefaultKey64 : List Nat :=
  [0x4ea9929a25d561c6, 0x98470d187b523e8f, 0x592040a2da3c4b53, 0xbff8b246e3c587a2]

/-- Byte stream hashed by DeviceList::fingerprint (device_list.cpp lines
137-146): the decimal representations of the device ids, appended in order
with no separator (absl AlphaNum of an int yields its decimal digits). -/
def DeviceList.fingerprintBytes (dl : DeviceList) : String :=
  String.join (dl.devices.map (fun d => toString d.id))

/-- Embedding of DeviceList::fingerprint.  The HighwayHash compression
function itself is an external library; it enters the embedding as the
parameter H, applied to the fixed compile-time key and to the byte stream
of device ids.  Every property proved below holds for all H, so nothing
depends on the concrete hash. -/
def DeviceList.fingerprint (H : List Nat → String → Nat) (dl : DeviceList) : Nat :=
  H kDefaultKey64 dl.fingerprintBytes

-- ============================================================================
-- XLA tiling specification (external collaborator of xla_shardings.cpp)
-- ============================================================================

/-- Subgroup type of an XLA tiling specification, as read through
subgroup_types() by xla_shardings.cpp lines 506-512. -/
inductive XlaSubgroupType where
  | replicated
  | manual
  | unreduced
deriving DecidableEq

/-- Modelled from the spec: the tile assignment of a tiling specification, an
array assigning a device index to every cell of the tile grid.  dims are
the per-axis tile counts (data axes first, then subgroup axes) and entries
is the row-major flattening of the array; the number of elements of the
array is the product of dims, and a consistent assignment has exactly that
many entries. -/
structure TileAssignment where
  dims : List Nat
  entries : List Nat
deriving DecidableEq

/-- Modelled from the spec: the externally supplied opaque tiling
specification wrapped by an HloSharding, with the classification queries the
sharding layer uses.  Replicated, tile-maximal, manual, unknown and
unreduced specifications carry no tile structure the fast path consumes. -/
inductive XlaShardingSpec where
  | replicated
  | maximal
  | manual
  | unknown
  | unreduced
  | tiled (ta : TileAssignment) (subgroup_types : List XlaSubgroupType)
deriving DecidableEq

/-- Modelled from the spec: IsReplicated marks full replication. -/
def XlaShardingSpec.IsReplicated : XlaShardingSpec → Bool
  | .replicated => true
  | _ => false

/-- Modelled from the spec: IsTileMaximal holds for a tile-maximal
specification; in XLA a replicated specification is represented as maximal
with the replicated flag set, so IsTileMaximal is also true there. -/
def XlaShardingSpec.IsTileMaximal : XlaShardingSpec → Bool
  | .replicated => true
  | .maximal => true
  | _ => false

/-- Modelled from the spec: IsManual. -/
def XlaShardingSpec.IsManual : XlaShardingSpec → Bool
  | .manual => true
  | _ => false

/-- Modelled from the spec: IsUnknown. -/
def XlaShardingSpec.IsUnknown : XlaShardingSpec → Bool
  | .unknown => true
  | _ => false

/-- Modelled from the spec: IsUnreduced. -/
def XlaShardingSpec.IsUnreduced : XlaShardingSpec → Bool
  | .unreduced => true
  | _ => false

/-- Modelled from the spec: IsTiled holds exactly for a tiled specification
(one that is none of maximal, manual, unknown, unreduced). -/
def XlaShardingSpec.IsTiled : XlaShardingSpec → Bool
  | .tiled _ _ => true
  | _ => false

/-- Product of a list of tile counts. -/
def prodNat (l : List Nat) : Nat := l.foldl (fun a b => a * b) 1

/-- Modelled from the spec: the number of elements of the tile assignment
array, the product of its per-axis tile counts. -/
def TileAssignment.numElements (ta : TileAssignment) : Nat := prodNat ta.dims

/-- Modelled from the spec: TiledDataRank, the number of data dimensions
being tiled: the rank of the tile assignment minus the number of subgroup
axes.  Non-tiled specifications report zero. -/
def XlaShardingSpec.TiledDataRank : XlaShardingSpec → Nat
  | .tiled ta subgroup_types => ta.dims.length - subgroup_types.length
  | _ => 0

/-- Modelled from the spec: TotalNumTiles, the total tile count including
replication, read by GetShardShape; one for a tile-maximal specification,
the element count of the tile assignment for a tiled one. -/
def XlaShardingSpec.TotalNumTiles : XlaShardingSpec → Nat
  | .tiled ta _ => ta.numElements
  | _ => 1

-- ============================================================================
-- Shape, Index and IndexDomain (source: shape.h, xla_shardings.cpp lines
-- 40-75)
-- ============================================================================

/-- Embedding of Shape (shape.h): an ordered sequence of int64 dimension
sizes. -/
structure Shape where
  dims : List Int
deriving DecidableEq

/-- Embedding of IndexDomain (xla_shardings.cpp lines 62-75): an origin index
together with the shape of the region.  The single-argument C++ constructor
taking only a shape leaves the origin empty, which the embedding reproduces
as the empty origin list. -/
structure IndexDomain where
  origin : List Int
  shape : List Int
deriving DecidableEq

/-- Placeholder index domain used for element accesses that are guarded by a
length check in the C++ sources. -/
def junkDomain : IndexDomain := ⟨[], []⟩

-- ============================================================================
-- HloSharding (source: xla_shardings.cpp, sharding.h)
-- ============================================================================

/-- Embedding of SingleDeviceShardSemantics (sharding.h lines 53-62). -/
inductive SingleDeviceShardSemantics where
  | kAddressableShards
  | kAllShards
deriving DecidableEq

/-- Device filter shared by Disassemble and IndexDomains: a device
contributes a shard iff all shards were requested or the device is
addressable. -/
def includeDevice (sems : SingleDeviceShardSemantics) (d : Device) : Bool :=
  sems == .kAllShards || d.addressable

/-- Embedding of HloSharding (xla_shardings.cpp): the device list, the
memory kind and the wrapped XLA tiling specification. -/
structure HloSharding where
  devices : List Device
  memory_kind : Option String
  spec : XlaShardingSpec
deriving DecidableEq

/-- Embedding of the is_fully_replicated computation in the HloSharding
constructor (xla_shardings.cpp lines 204-207): true when the specification
is replicated, or when it is tiled or tile-maximal and the device list has
exactly one device. -/
def HloSharding.IsFullyReplicated (h : HloSharding) : Bool :=
  h.spec.IsReplicated ||
    ((h.spec.IsTiled || h.spec.IsTileMaximal) && h.devices.length == 1)

/-- Modelled from the spec: XLA CeilOfRatio on int64 values, used for shard
sizes; the tile counts that appear as divisors are positive in every
consistent tiling specification, and the embedding fixes the value for a
non-positive divisor at zero. -/
def ceilOfRatio (a b : Int) : Int :=
  if 0 < b then (a + b - 1).tdiv b else 0

/-- Shard size of a tiled specification along data axis i: the ceiling of
the dimension size divided by the tile count of that axis. -/
def shardSizeAt (ta : TileAssignment) (shape : Shape) (i : Nat) : Int :=
  ceilOfRatio (shape.dims.getD i 0) (ta.dims.getD i 1 : Int)

/-- Row-major stride of axis i of the tile grid: the product of the tile
counts of all later axes. -/
def tileStride (dims : List Nat) (i : Nat) : Nat :=
  prodNat (dims.drop (i + 1))

/-- Coordinate along axis i of the tile-grid cell at row-major position p. -/
def tileCoord (dims : List Nat) (p i : Nat) : Nat :=
  (p / tileStride dims i) % dims.getD i 1

/-- Modelled from the spec: the tile offset of the grid cell at row-major
position p, projected to the data axes; each component is the coordinate
times the shard size, clamped to the dimension size so that the last shard
of an unevenly divided axis is smaller. -/
def tileOffsets (ta : TileAssignment) (shape : Shape) (dataRank p : Nat) : List Int :=
  (List.range dataRank).map (fun i =>
    min ((tileCoord ta.dims p i : Int) * shardSizeAt ta shape i) (shape.dims.getD i 0))

/-- Modelled from the spec: the tile limit of the grid cell at row-major
position p, projected to the data axes; one past the offset, clamped to the
dimension size. -/
def tileLimits (ta : TileAssignment) (shape : Shape) (dataRank p : Nat) : List Int :=
  (List.range dataRank).map (fun i =>
    min (((tileCoord ta.dims p i : Int) + 1) * shardSizeAt ta shape i) (shape.dims.getD i 0))

/-- Index domain of the tile at row-major position p: origin is the tile
offset and the shape is the elementwise difference of limit and offset.
Both the fast path (the EachTile callback at xla_shardings.cpp lines
565-578) and the slow path (lines 139-149) form the domain this way. -/
def tileDomainAt (ta : TileAssignment) (shape : Shape) (dataRank p : Nat) : IndexDomain :=
  ⟨tileOffsets ta shape dataRank p,
   List.zipWith (fun l o => l - o) (tileLimits ta shape dataRank p)
     (tileOffsets ta shape dataRank p)⟩

/-- Modelled from the spec: the search TileIndexForDevice performs inside the
tile assignment.  XLA iterates every cell in row-major order and keeps the
coordinates of the cell whose entry matches the device, so the position kept
is the last matching one; none models the CHECK failure when the device does
not occur. -/
def lastPosOf (entries : List Nat) (d : Nat) : Option Nat :=
  (List.range entries.length).foldl
    (fun acc p => if entries.getD p 0 = d then some p else acc) none

/-- Per-device tile domain of the slow path: the domain of the tile-grid cell
that TileIndexForDevice finds for the device.  TileOffsetForDevice and
TileLimitForDevice apply the clamped shard-size formulas to the found
coordinates; XLA checks that the shape rank equals the tiled data rank
before doing so, which the theorems below assume. -/
def slowDomainForDevice (ta : TileAssignment) (shape : Shape) (dataRank d : Nat) :
    Option IndexDomain :=
  (lastPosOf ta.entries d).map (fun p => tileDomainAt ta shape dataRank p)

/-- Embedding of IndexDomainsSlowPath (xla_shardings.cpp lines 105-154): for
each device in order, when the semantics include it, query the tile offset
and limit for that device and emit the resulting domain.  For a tile-maximal
or replicated specification the query reports the whole array at origin
zero.  For manual, unknown or unreduced specifications the query CHECK-fails
inside XLA, the designated ubCheckFail branch, as does the lookup of a
device that the tile assignment does not mention. -/
def IndexDomainsSlowPath (spec : XlaShardingSpec) (devices : List Device)
    (shape : Shape) (sems : SingleDeviceShardSemantics) : CppResult (List IndexDomain) :=
  match spec with
  | .tiled ta subgroup_types =>
      let dataRank := ta.dims.length - subgroup_types.length
      let n := devices.length
      if ∀ d ∈ List.range n, includeDevice sems (devices.getD d junkDevice) →
          (slowDomainForDevice ta shape dataRank d).isSome then
        .ok ((List.range n).filterMap (fun d =>
          if includeDevice sems (devices.getD d junkDevice) then
            slowDomainForDevice ta shape dataRank d
          else none))
      else .ubCheckFail
  | .replicated | .maximal =>
      .ok ((List.range devices.length).filterMap (fun d =>
        if includeDevice sems (devices.getD d junkDevice) then
          some ⟨List.replicate shape.dims.length 0, shape.dims⟩
        else none))
  | _ => .ubCheckFail

/-- Embedding of HloSharding::GetShardShape (xla_shardings.cpp lines
210-260): tile-maximal, manual, unreduced and unknown specifications return
the full shape; otherwise the total tile count must match the device count
and the shape rank must match the tiled data rank, and each shard dimension
is the ceiling of the dimension size over the tile count of that axis. -/
def HloSharding.GetShardShape (h : HloSharding) (shape : Shape) : Except String Shape :=
  if h.spec.IsTileMaximal || h.spec.IsManual || h.spec.IsUnreduced || h.spec.IsUnknown then
    .ok shape
  else if h.spec.TotalNumTiles ≠ h.devices.length then
    .error "tile count and device count does not match"
  else if shape.dims.length ≠ h.spec.TiledDataRank then
    .error "Numbers of dimensions do not match"
  else
    match h.spec with
    | .tiled ta _ =>
        .ok ⟨(List.range shape.dims.length).map (fun i => shardSizeAt ta shape i)⟩
    | _ => .ok shape

/-- Scatter performed by the fast path of IndexDomains (xla_shardings.cpp
lines 552-578): EachTile visits every tile-grid cell in row-major order and
the callback stores the domain of the cell into the slot of the device the
cell is assigned to.  The C++ vector write is unchecked; a device index at
or beyond the device count would be an out-of-bounds write, which the
hypotheses of the theorems below rule out (List.set drops such a write). -/
def eachTileScatter (ta : TileAssignment) (shape : Shape) (dataRank n : Nat) :
    List (Option IndexDomain) :=
  (List.range ta.numElements).foldl
    (fun acc p => acc.set (ta.entries.getD p 0) (some (tileDomainAt ta shape dataRank p)))
    (List.replicate n none)

/-- Embedding of the two-argument HloSharding::IndexDomains
(xla_shardings.cpp lines 456-603).  Manual shardings are rejected;
replicated and tile-maximal shardings replicate the whole-array domain (with
the empty origin of the single-argument IndexDomain constructor); non-tiled
specifications take the slow path, as does any tiled specification with a
non-replicated subgroup; otherwise the tile assignment must have exactly one
element per device and the shape rank must equal the tiled data rank, and
the domains are computed by the EachTile scatter and then filtered by the
shard semantics in device order.  Moving out of a scatter slot that was
never filled dereferences a disengaged optional: the ubCheckFail branch. -/
def HloSharding.IndexDomains (h : HloSharding) (shape : Shape)
    (sems : SingleDeviceShardSemantics) : CppResult (List IndexDomain) :=
  let n := h.devices.length
  match h.spec with
  | .manual => .err "Manual sharding does not support IndexDomains"
  | .replicated =>
      .ok (List.replicate
        (if sems == .kAllShards then n
         else (h.devices.filter (fun d => d.addressable)).length)
        ⟨[], shape.dims⟩)
  | .maximal =>
      .ok (List.replicate
        (if sems == .kAllShards then n
         else (h.devices.filter (fun d => d.addressable)).length)
        ⟨[], shape.dims⟩)
  | .unknown => IndexDomainsSlowPath h.spec h.devices shape sems
  | .unreduced => IndexDomainsSlowPath h.spec h.devices shape sems
  | .tiled ta subgroup_types =>
      if ¬ (∀ t ∈ subgroup_types, t = XlaSubgroupType.replicated) then
        IndexDomainsSlowPath h.spec h.devices shape sems
      else if ta.numElements ≠ n then
        .err "tile_assignment_devices and device count does not match"
      else if shape.dims.length ≠ ta.dims.length - subgroup_types.length then
        .err "shape must have the tiled data rank dimensions"
      else
        match h.GetShardShape shape with
        | .error e => .err e
        | .ok _ =>
            let dataRank := ta.dims.length - subgroup_types.length
            let all := eachTileScatter ta shape dataRank n
            if ∀ d ∈ List.range n, includeDevice sems (h.devices.getD d junkDevice) →
                (all.getD d none).isSome then
              .ok ((List.range n).filterMap (fun d =>
                if includeDevice sems (h.devices.getD d junkDevice) then
                  all.getD d none
                else none))
            else .ubCheckFail

/-- Embedding of the single-argument HloSharding::IndexDomains overload
(xla_shardings.cpp lines 450-454): it forwards kAllShards. -/
def HloSharding.IndexDomainsDefault (h : HloSharding) (shape : Shape) :
    CppResult (List IndexDomain) :=
  h.IndexDomains shape .kAllShards

/-- Embedding of the SingleDeviceSharding values produced per shard by
Disassemble (sharding.h lines 235-285): one device plus the memory kind. -/
structure SingleDeviceSharding where
  device : Device
  memory_kind : Option String
deriving DecidableEq

/-- Even-sharding test of HloSharding::Disassemble (xla_shardings.cpp lines
313-351): replicated, tile-maximal, unreduced and manual specifications are
even; a tiled specification is even when, after the rank check, every data
dimension divides evenly by its tile count; anything else is uneven.  The
rank mismatch inside the tiled case is a recoverable error. -/
def hloDisassembleEven (h : HloSharding) (shape : Shape) : Except String Bool :=
  match h.spec with
  | .replicated => .ok true
  | .maximal => .ok true
  | .unreduced => .ok true
  | .manual => .ok true
  | .unknown => .ok false
  | .tiled ta subgroup_types =>
      let dataRank := ta.dims.length - subgroup_types.length
      if shape.dims.length ≠ dataRank then
        .error "shape must have the tiled data rank dimensions"
      else
        .ok (decide (∀ i ∈ List.range dataRank,
          (shape.dims.getD i 0).tmod (ta.dims.getD i 1 : Int) = 0))

/-- Embedding of the two-argument HloSharding::Disassemble for static shapes
(xla_shardings.cpp lines 307-428).  Even shardings compute the shard shape
once and pair it with a SingleDeviceSharding per included device; uneven
shardings call the single-argument IndexDomains (which forwards kAllShards),
check that one domain per device came back (a CHECK in the source), and pair
the per-device domain shapes with SingleDeviceShardings. -/
def HloSharding.Disassemble (h : HloSharding) (shape : Shape)
    (sems : SingleDeviceShardSemantics) : CppResult (List (Shape × SingleDeviceSharding)) :=
  match hloDisassembleEven h shape with
  | .error e => .err e
  | .ok true =>
      match h.GetShardShape shape with
      | .error e => .err e
      | .ok shard_shape =>
          .ok ((List.range h.devices.length).filterMap (fun i =>
            let dev := h.devices.getD i junkDevice
            if includeDevice sems dev then some (shard_shape, ⟨dev, h.memory_kind⟩)
            else none))
  | .ok false =>
      match h.IndexDomainsDefault shape with
      | .err e => .err e
      | .ubOutOfBounds => .ubOutOfBounds
      | .ubDivZero => .ubDivZero
      | .ubCheckFail => .ubCheckFail
      | .ok doms =>
          if doms.length ≠ h.devices.length then .ubCheckFail
          else
            .ok ((List.range h.devices.length).filterMap (fun i =>
              let dev := h.devices.getD i junkDevice
              if includeDevice sems dev then
                some (⟨(doms.getD i junkDomain).shape⟩, ⟨dev, h.memory_kind⟩)
              else none))

/-- Embedding of the single-argument HloSharding::Disassemble overload
(xla_shardings.cpp lines 301-305): it forwards kAllShards. -/
def HloSharding.DisassembleDefault (h : HloSharding) (shape : Shape) :
    CppResult (List (Shape × SingleDeviceSharding)) :=
  h.Disassemble shape .kAllShards

-- ============================================================================
-- Helper lemmas about LocalShapeFromGlobalShape
-- ============================================================================

/-- Divisibility relation used for the shape-conversion lemmas: the shard
count is nonzero and divides the dimension size. -/
def ShardDivides (a b : Int) : Prop := a ≠ 0 ∧ a ∣ b

instance (a b : Int) : Decidable (ShardDivides a b) := by
  unfold ShardDivides; infer_instance

lemma getElem?_of_drop_cons {gs t : List Int} {b : Int} {i : Nat}
    (h : gs.drop i = b :: t) : gs[i]? = some b := by
  rw [← List.head?_drop, h]; rfl

lemma lt_length_of_drop_cons {gs t : List Int} {b : Int} {i : Nat}
    (h : gs.drop i = b :: t) : i < gs.length := by
  by_contra hle
  rw [List.drop_eq_nil_iff.mpr (by omega)] at h
  exact List.noConfusion h

lemma drop_succ_of_drop_cons {gs t : List Int} {b : Int} {i : Nat}
    (h : gs.drop i = b :: t) : gs.drop (i + 1) = t := by
  rw [← List.tail_drop, h]; rfl

lemma localFromGlobalLoop_ok (gs : List Int) {d gpre : List Int}
    (h : List.Forall₂ ShardDivides d gpre) :
    ∀ (grest : List Int) (i : Nat) (acc : List Int), gs.drop i = gpre ++ grest →
      localFromGlobalLoop gs d i acc =
        .ok (acc.reverse ++ List.zipWith (fun a b => Int.tdiv b a) d gpre) := by
  induction h with
  | nil =>
      intro grest i acc _
      simp [localFromGlobalLoop]
  | cons ha hrest ih =>
      intro grest i acc hdrop
      rename_i a b d2 g2
      have hlt : i < gs.length := lt_length_of_drop_cons hdrop
      have hget : gs.getD i 0 = b := by
        rw [List.getD_eq_getElem?_getD, getElem?_of_drop_cons hdrop]; rfl
      have htmod : b.tmod a = 0 := Int.tmod_eq_zero_of_dvd ha.2
      have hds : gs.drop (i + 1) = g2 ++ grest := drop_succ_of_drop_cons hdrop
      have hih := ih grest (i + 1) (b.tdiv a :: acc) hds
      simp only [localFromGlobalLoop, if_pos hlt, hget]
      rw [if_neg ha.1, if_neg (by simp [htmod]), hih]
      simp [List.zipWith]

lemma localFromGlobalLoop_err (gs : List Int) {d gpre : List Int}
    (h : List.Forall₂ ShardDivides d gpre) :
    ∀ (x : Int) (dtail : List Int) (y : Int) (grest : List Int) (i : Nat) (acc : List Int),
      gs.drop i = gpre ++ y :: grest → x ≠ 0 → ¬ x ∣ y →
      localFromGlobalLoop gs (d ++ x :: dtail) i acc =
        .err (localShapeErrMsg gs x (i + d.length)) := by
  induction h with
  | nil =>
      intro x dtail y grest i acc hdrop hx hxy
      have hlt : i < gs.length := lt_length_of_drop_cons hdrop
      have hget : gs.getD i 0 = y := by
        rw [List.getD_eq_getElem?_getD, getElem?_of_drop_cons hdrop]; rfl
      have htmod : (gs.getD i 0).tmod x ≠ 0 := by
        rw [hget]; exact fun hc => hxy (Int.dvd_of_tmod_eq_zero hc)
      simp only [List.nil_append, localFromGlobalLoop, if_pos hlt, if_neg hx]
      rw [if_pos htmod]
      simp
  | cons ha hrest ih =>
      intro x dtail y grest i acc hdrop hx hxy
      rename_i a b d2 g2
      have hlt : i < gs.length := lt_length_of_drop_cons hdrop
      have hget : gs.getD i 0 = b := by
        rw [List.getD_eq_getElem?_getD, getElem?_of_drop_cons hdrop]; rfl
      have htmod : b.tmod a = 0 := Int.tmod_eq_zero_of_dvd ha.2
      have hds : gs.drop (i + 1) = g2 ++ y :: grest := drop_succ_of_drop_cons hdrop
      have hih := ih x dtail y grest (i + 1) (b.tdiv a :: acc) hds hx hxy
      simp only [List.cons_append, localFromGlobalLoop, if_pos hlt, hget]
      rw [if_neg ha.1, if_neg (by simp [htmod])]
      simp only [List.append_eq] at hih ⊢
      rw [hih]
      have hn : i + 1 + d2.length = i + (a :: d2).length := by simp; omega
      rw [hn]

lemma localFromGlobalLoop_ne_oob (gs : List Int) :
    ∀ (d : List Int) (i : Nat) (acc : List Int), i + d.length ≤ gs.length →
      localFromGlobalLoop gs d i acc ≠ CppResult.ubOutOfBounds := by
  intro d
  induction d with
  | nil => intro i acc _; simp [localFromGlobalLoop]
  | cons x rest ih =>
      intro i acc hlen
      have hlt : i < gs.length := by simp at hlen; omega
      simp only [localFromGlobalLoop, if_pos hlt]
      by_cases hx : x = 0
      · simp [hx]
      · rw [if_neg hx]
        by_cases hm : (gs.getD i 0).tmod x ≠ 0
        · rw [if_pos hm]; simp
        · rw [if_neg hm]
          exact ih (i + 1) _ (by simp at hlen ⊢; omega)

lemma zipWith_mul_tdiv {d g : List Int} (h : List.Forall₂ ShardDivides d g) :
    List.zipWith (fun a b => a * b) d (List.zipWith (fun a b => Int.tdiv b a) d g) = g := by
  induction h with
  | nil => rfl
  | cons ha _ ih =>
      rename_i a b d2 g2
      simp only [List.zipWith, ih, List.cons.injEq, and_true]
      exact Int.mul_tdiv_cancel' ha.2

-- ============================================================================
-- Helper lemmas about ShardingParam.verify
-- ============================================================================

lemma consumeDims_no_divzero {s : List Int} (hs : ∀ x ∈ s, x ≠ 0) :
    ∀ cum, consumeDims cum s ≠ CppResult.ubDivZero := by
  induction s with
  | nil => intro cum; simp [consumeDims]
  | cons x rest ih =>
      intro cum
      have hx : x ≠ 0 := hs x (by simp)
      simp only [consumeDims, if_neg hx]
      by_cases hm : cum.tmod x = 0
      · rw [if_pos hm]
        exact ih (fun y hy => hs y (by simp [hy])) _
      · rw [if_neg hm]; simp

lemma consumeDims_ok_subset {s : List Int} :
    ∀ cum c2 s2, consumeDims cum s = .ok (c2, s2) → ∀ x ∈ s2, x ∈ s := by
  induction s with
  | nil =>
      intro cum c2 s2 h
      simp [consumeDims] at h
      simp [h.2]
  | cons x rest ih =>
      intro cum c2 s2 h
      by_cases hx : x = 0
      · simp [consumeDims, hx] at h
      · simp only [consumeDims, if_neg hx] at h
        by_cases hm : cum.tmod x = 0
        · rw [if_pos hm] at h
          intro y hy
          exact List.mem_cons_of_mem x (ih _ _ _ h y hy)
        · rw [if_neg hm] at h
          simp only [CppResult.ok.injEq, Prod.mk.injEq] at h
          rw [← h.2]
          exact fun y hy => hy

lemma dropOnes_subset (l : List Int) : ∀ x ∈ dropOnes l, x ∈ l :=
  fun _ hx => (List.dropWhile_sublist (fun y => y == 1)).subset hx

lemma verifyLoop_no_divzero (axes : List Int) :
    ∀ (perm : List Int) (cum : Int) (s : List Int), (∀ x ∈ s, x ≠ 0) →
      verifyLoop axes perm cum s ≠ CppResult.ubDivZero := by
  intro perm
  induction perm with
  | nil => intro cum s _; simp [verifyLoop]
  | cons idx prest ih =>
      intro cum s hs
      have hs1 : ∀ x ∈ dropOnes s, x ≠ 0 := fun x hx => hs x (dropOnes_subset s x hx)
      simp only [verifyLoop]
      by_cases he : (dropOnes s).isEmpty
      · simp [he]
      · rw [if_neg he]
        by_cases hb : 0 ≤ idx ∧ idx.toNat < axes.length
        · rw [if_pos hb]
          rcases hcons : consumeDims (cum * axes.getD idx.toNat 0) (dropOnes s) with
            v | e | _ | _ | _
          · rcases v with ⟨cum2, s2⟩
            exact ih cum2 s2 (fun x hx => hs1 x (consumeDims_ok_subset _ _ _ hcons x hx))
          · simp
          · simp
          · exact absurd hcons (consumeDims_no_divzero hs1 _)
          · simp
        · rw [if_neg hb]; simp

-- ============================================================================
-- Claim theorems: ShardingParam
-- ============================================================================

/-- C5: for every ShardingParam and every global shape of the same rank as
dim_shards in which every dimension is evenly divided by a nonzero shard
count, LocalShapeFromGlobalShape succeeds with the elementwise quotient and
GlobalShapeFromLocalShape maps that quotient back to exactly the original
global shape.  (Amended from the claim: the entry of dim_shards must be
nonzero; the source computes the C++ remainder by the entry, so a zero
entry is a remainder by zero rather than a successful division.) -/
theorem localShape_globalShape_roundTrip (sp : ShardingParam) (g : List Int)
    (h : List.Forall₂ ShardDivides sp.dim_shards g) :
    sp.LocalShapeFromGlobalShape g =
      .ok (List.zipWith (fun a b => Int.tdiv b a) sp.dim_shards g) ∧
    sp.GlobalShapeFromLocalShape
        (List.zipWith (fun a b => Int.tdiv b a) sp.dim_shards g) = .ok g := by
  constructor
  · have := localFromGlobalLoop_ok g h [] 0 [] (by simp)
    simpa [ShardingParam.LocalShapeFromGlobalShape] using this
  · have hlen : sp.dim_shards.length = g.length := h.length_eq
    have hzlen : (List.zipWith (fun a b => Int.tdiv b a) sp.dim_shards g).length =
        sp.dim_shards.length := by
      simp [List.length_zipWith, hlen]
    simp only [ShardingParam.GlobalShapeFromLocalShape, hzlen, ne_eq,
      not_true_eq_false, if_false]
    rw [zipWith_mul_tdiv h]

/-- C5 witness: the round trip applied at dim_shards [2, 1, 3] and global
shape [100, 100, 60]. -/
theorem localShape_globalShape_roundTrip_witness :
    (⟨[2, 1, 3], ⟨[1, 0], [3, 2]⟩⟩ : ShardingParam).LocalShapeFromGlobalShape
        [100, 100, 60] =
      .ok (List.zipWith (fun a b => Int.tdiv b a) [2, 1, 3] [100, 100, 60]) ∧
    (⟨[2, 1, 3], ⟨[1, 0], [3, 2]⟩⟩ : ShardingParam).GlobalShapeFromLocalShape
        (List.zipWith (fun a b => Int.tdiv b a) [2, 1, 3] [100, 100, 60]) =
      .ok [100, 100, 60] :=
  localShape_globalShape_roundTrip ⟨[2, 1, 3], ⟨[1, 0], [3, 2]⟩⟩ [100, 100, 60]
    (.cons ⟨by decide, by decide⟩
      (.cons ⟨by decide, by decide⟩ (.cons ⟨by decide, by decide⟩ .nil)))

/-- C5 counterexample: the claim quantifies over every ShardingParam; with
dim_shards equal to the single entry 0 and global shape the single dimension
0 the rank matches and 0 divides 0, yet LocalShapeFromGlobalShape does not
succeed: it reaches the C++ remainder by zero, the designated ubDivZero
branch of the embedding. -/
theorem localShape_zero_shard_roundTrip_fails :
    ((0 : Int) ∣ 0) ∧
    (⟨[0], ⟨[], []⟩⟩ : ShardingParam).LocalShapeFromGlobalShape [0] =
      CppResult.ubDivZero :=
  ⟨dvd_refl 0, by decide⟩

/-- C6: for every ShardingParam with nonzero dim_shards entries and every
equal-rank global shape, LocalShapeFromGlobalShape returns the elementwise
quotient when every dimension divides exactly; when some dimension does not
divide, it returns the invalid-argument error whose message names the first
offending dimension index; and GlobalShapeFromLocalShape is the elementwise
product after its rank check.  (Amended from the claim: the dim_shards
entries must be nonzero, since a zero entry reaches a C++ remainder by zero
instead of returning the error.) -/
theorem localShape_exact_division_spec (sp : ShardingParam) (g : List Int) :
    (List.Forall₂ ShardDivides sp.dim_shards g →
      sp.LocalShapeFromGlobalShape g =
        .ok (List.zipWith (fun a b => Int.tdiv b a) sp.dim_shards g)) ∧
    (∀ (dpre : List Int) (x : Int) (dtail gpre : List Int) (y : Int) (grest : List Int),
      sp.dim_shards = dpre ++ x :: dtail → g = gpre ++ y :: grest →
      List.Forall₂ ShardDivides dpre gpre → x ≠ 0 → ¬ x ∣ y →
      sp.LocalShapeFromGlobalShape g = .err (localShapeErrMsg g x dpre.length)) ∧
    (∀ l : List Int, l.length = sp.dim_shards.length →
      sp.GlobalShapeFromLocalShape l =
        .ok (List.zipWith (fun a b => a * b) sp.dim_shards l)) := by
  refine ⟨?_, ?_, ?_⟩
  · intro h
    have := localFromGlobalLoop_ok g h [] 0 [] (by simp)
    simpa [ShardingParam.LocalShapeFromGlobalShape] using this
  · intro dpre x dtail gpre y grest hd hg hpre hx hxy
    have := localFromGlobalLoop_err g hpre x dtail y grest 0 [] (by simp [hg]) hx hxy
    rw [ShardingParam.LocalShapeFromGlobalShape, hd]
    simpa using this
  · intro l hlen
    simp [ShardingParam.GlobalShapeFromLocalShape, hlen]

/-- C6 witness: the error case applied at dim_shards [2, 3] and global shape
[4, 7]: the first dimension divides evenly, the second does not, and the
error message names dimension index 1. -/
theorem localShape_exact_division_spec_witness :
    (⟨[2, 3], ⟨[1, 0], [3, 2]⟩⟩ : ShardingParam).LocalShapeFromGlobalShape [4, 7] =
      .err (localShapeErrMsg [4, 7] 3 1) :=
  (localShape_exact_division_spec ⟨[2, 3], ⟨[1, 0], [3, 2]⟩⟩ [4, 7]).2.1
    [2] 3 [] [4] 7 [] rfl rfl (.cons ⟨by decide, by decide⟩ .nil)
    (by decide) (by decide)

/-- C6 counterexample: with dim_shards equal to the single entry 0 and the
equal-rank global shape with single dimension 1, the dimension is not
exactly divisible, so the claim promises an invalid-argument error naming
the offending dimension; the source instead computes the C++ remainder 1
modulo 0, the designated ubDivZero branch. -/
theorem localShape_zero_shard_no_error :
    (⟨[0], ⟨[], []⟩⟩ : ShardingParam).LocalShapeFromGlobalShape [1] =
      CppResult.ubDivZero := by
  decide

/-- C9: LocalShapeFromGlobalShape performs no rank check.  First, whenever
the global shape has at least as many dimensions as dim_shards (and the
leading dimensions divide by their nonzero shard counts) the conversion
succeeds, ignores every trailing dimension entirely, and the result rank
equals the rank of dim_shards.  Second, whenever the global shape has at
least the rank of dim_shards, the out-of-bounds branch of the embedding is
unreachable.  Third, GlobalShapeFromLocalShape does perform the rank check
and errors on any mismatch.  Fourth, a global shape shorter than dim_shards
can reach the out-of-bounds branch, so the precondition is not superfluous. -/
theorem localShape_no_rank_check :
    (∀ (sp : ShardingParam) (gpre grest : List Int),
      List.Forall₂ ShardDivides sp.dim_shards gpre →
      sp.LocalShapeFromGlobalShape (gpre ++ grest) =
        .ok (List.zipWith (fun a b => Int.tdiv b a) sp.dim_shards gpre) ∧
      (List.zipWith (fun a b => Int.tdiv b a) sp.dim_shards gpre).length =
        sp.dim_shards.length) ∧
    (∀ (sp : ShardingParam) (g : List Int), sp.dim_shards.length ≤ g.length →
      sp.LocalShapeFromGlobalShape g ≠ CppResult.ubOutOfBounds) ∧
    (∀ (sp : ShardingParam) (l : List Int), l.length ≠ sp.dim_shards.length →
      sp.GlobalShapeFromLocalShape l =
        .error "Rank of local tensor differs from rank of dim_shards.") ∧
    ((⟨[2], ⟨[], []⟩⟩ : ShardingParam).LocalShapeFromGlobalShape [] =
      CppResult.ubOutOfBounds) := by
  refine ⟨?_, ?_, ?_, by decide⟩
  · intro sp gpre grest h
    constructor
    · have := localFromGlobalLoop_ok (gpre ++ grest) h grest 0 [] (by simp)
      simpa [ShardingParam.LocalShapeFromGlobalShape] using this
    · simp [List.length_zipWith, h.length_eq]
  · intro sp g hlen
    exact localFromGlobalLoop_ne_oob g sp.dim_shards 0 [] (by omega)
  · intro sp l hlen
    simp [ShardingParam.GlobalShapeFromLocalShape, hlen]

/-- C9 witness: the theorem applied at dim_shards [2, 3] and global shape
[8, 9, 7], whose trailing dimension 7 is ignored. -/
theorem localShape_no_rank_check_witness :
    (⟨[2, 3], ⟨[], []⟩⟩ : ShardingParam).LocalShapeFromGlobalShape [8, 9, 7] =
      .ok [4, 3] := by
  have h := localShape_no_rank_check.1 ⟨[2, 3], ⟨[], []⟩⟩ [8, 9] [7]
    (by constructor
        · exact ⟨by decide, by decide⟩
        · constructor
          · exact ⟨by decide, by decide⟩
          · exact List.Forall₂.nil)
  simpa using h.1

/-- C10: verify never checks dim_shards entries for positivity, but its
remainder and division by the current entry are well defined whenever every
entry is at least 1: under that precondition the divide-by-zero branch of
the embedding is unreachable; and the concrete ShardingParam with dim_shards
[0], permutation [0] and axis_sizes [1] passes the MinorToMajor checks and
then reaches the remainder by zero instead of returning a recoverable
error. -/
theorem verify_divzero_unreachable_iff_positive :
    (∀ sp : ShardingParam, (∀ x ∈ sp.dim_shards, 1 ≤ x) →
      sp.verify ≠ CppResult.ubDivZero) ∧
    ((⟨[0], ⟨[0], [1]⟩⟩ : ShardingParam).verify = CppResult.ubDivZero) := by
  constructor
  · intro sp hpos
    have hs : ∀ x ∈ sp.dim_shards, x ≠ 0 := fun x hx => by
      have := hpos x hx; omega
    unfold ShardingParam.verify
    rcases hm : sp.minor_to_major.verify with e | u
    · simp
    · rcases hv : verifyLoop sp.minor_to_major.axis_sizes sp.minor_to_major.permutation
          1 sp.dim_shards with v | e | _ | _ | _
      · rcases v with ⟨cum, s⟩
        by_cases he : (dropOnes s).isEmpty <;> simp [he]
      · simp
      · simp
      · exact absurd hv (verifyLoop_no_divzero _ _ 1 sp.dim_shards hs)
      · simp
  · decide

/-- C10 witness: the unreachability statement applied at the valid
ShardingParam with dim_shards [2, 1, 3] over the mesh [3, 2], all of whose
entries are positive. -/
theorem verify_divzero_unreachable_witness :
    (⟨[2, 1, 3], ⟨[1, 0], [3, 2]⟩⟩ : ShardingParam).verify ≠ CppResult.ubDivZero :=
  verify_divzero_unreachable_iff_positive.1 ⟨[2, 1, 3], ⟨[1, 0], [3, 2]⟩⟩ (by decide)

/-- C3: evaluation of the code at the failing input and at the documented
scenario.  The ShardingParam with dim_shards [1], permutation [0] and
axis_sizes [-2] passes verify, because the positivity check on axis_sizes
documented in sharding_params.h is not implemented; its NumDevices is -2
while ToDeviceList produces 0 entries, so a verified ShardingParam does not
always produce NumDevices entries.  The documented scenario with dim_shards
[2, 1, 3], permutation [1, 0] and axis_sizes [3, 2] behaves as claimed:
verify succeeds, NumDevices is 6 and ToDeviceList yields the six ids 0
through 5 each exactly once. -/
theorem toDeviceList_unchecked_axis_sizes :
    ((⟨[1], ⟨[0], [-2]⟩⟩ : ShardingParam).verify = CppResult.ok () ∧
     (⟨[1], ⟨[0], [-2]⟩⟩ : ShardingParam).NumDevices = -2 ∧
     ((⟨[1], ⟨[0], [-2]⟩⟩ : ShardingParam).minor_to_major.ToDeviceList.length : Int) ≠
       (⟨[1], ⟨[0], [-2]⟩⟩ : ShardingParam).NumDevices) ∧
    ((⟨[2, 1, 3], ⟨[1, 0], [3, 2]⟩⟩ : ShardingParam).verify = CppResult.ok () ∧
     (⟨[2, 1, 3], ⟨[1, 0], [3, 2]⟩⟩ : ShardingParam).NumDevices = 6 ∧
     List.Perm (⟨[2, 1, 3], ⟨[1, 0], [3, 2]⟩⟩ : ShardingParam).minor_to_major.ToDeviceList
       [0, 1, 2, 3, 4, 5]) := by
  refine ⟨⟨by decide, by decide, by decide⟩, ⟨by decide, by decide, by decide⟩⟩

-- ============================================================================
-- Claim theorems: DeviceList
-- ============================================================================

/-- C7: when every device of a DeviceList is addressable,
AddressableDeviceList returns the very same list object (the self result,
so IsFullyAddressable is true) for any cache state; otherwise, starting from
the empty cache, it returns the list of exactly the addressable devices of
the original in their original order (the filter), and calling it again with
the cache produced by the first call returns the same cached list with the
cache unchanged. -/
theorem addressableDeviceList_spec (dl : DeviceList) :
    ((∀ d ∈ dl.devices, d.addressable = true) →
      ∀ cache, (dl.AddressableDeviceList cache).1 = ADLResult.self ∧
        dl.IsFullyAddressable cache = true) ∧
    ((¬ ∀ d ∈ dl.devices, d.addressable = true) →
      dl.AddressableDeviceList none =
        (ADLResult.cached (dl.devices.filter (fun d => d.addressable)),
         some (dl.devices.filter (fun d => d.addressable))) ∧
      dl.AddressableDeviceList (dl.AddressableDeviceList none).2 =
        dl.AddressableDeviceList none) := by
  constructor
  · intro hall cache
    have hb : dl.devices.all (fun d => d.addressable) = true := by
      rw [List.all_eq_true]; exact hall
    constructor
    · simp [DeviceList.AddressableDeviceList, hb]
    · simp [DeviceList.IsFullyAddressable, DeviceList.AddressableDeviceList, hb]
  · intro hnall
    have hb : dl.devices.all (fun d => d.addressable) = false := by
      rw [← Bool.not_eq_true, List.all_eq_true]
      exact fun hc => hnall hc
    constructor
    · simp [DeviceList.AddressableDeviceList, hb]
    · simp [DeviceList.AddressableDeviceList, hb]

/-- C7 witness: the theorem applied to a two-device list whose second device
is not addressable, and to a fully addressable one-device list. -/
theorem addressableDeviceList_spec_witness :
    (DeviceList.mk [⟨0, "GPU", 0, true⟩, ⟨1, "GPU", 1, false⟩]).AddressableDeviceList none =
      (ADLResult.cached [⟨0, "GPU", 0, true⟩], some [⟨0, "GPU", 0, true⟩]) ∧
    (DeviceList.mk [⟨0, "GPU", 0, true⟩]).IsFullyAddressable none = true := by
  constructor
  · have h := (addressableDeviceList_spec
      (DeviceList.mk [⟨0, "GPU", 0, true⟩, ⟨1, "GPU", 1, false⟩])).2 (by decide)
    exact h.1
  · exact ((addressableDeviceList_spec (DeviceList.mk [⟨0, "GPU", 0, true⟩])).1
      (by decide) none).2

/-- C8: the fingerprint of a DeviceList is a function of the ordered sequence
of device ids alone: for every hash function H (applied to the fixed
compile-time key and the byte stream of the ids), two lists whose devices
have identical id sequences, however else those devices differ in kind,
process index or addressability, have identical fingerprints. -/
theorem fingerprint_depends_only_on_ids (H : List Nat → String → Nat)
    (l1 l2 : DeviceList) (h : l1.devices.map Device.id = l2.devices.map Device.id) :
    DeviceList.fingerprint H l1 = DeviceList.fingerprint H l2 := by
  unfold DeviceList.fingerprint DeviceList.fingerprintBytes
  have h1 : l1.devices.map (fun d => toString d.id) =
      (l1.devices.map Device.id).map toString := by
    rw [List.map_map]; rfl
  have h2 : l2.devices.map (fun d => toString d.id) =
      (l2.devices.map Device.id).map toString := by
    rw [List.map_map]; rfl
  rw [h1, h2, h]

/-- C8 witness: two independently constructed lists whose devices share ids
0 and 1 but differ in kind, process index and addressability have the same
fingerprint under a concrete hash function. -/
theorem fingerprint_depends_only_on_ids_witness :
    DeviceList.fingerprint (fun _ s => s.length)
        (DeviceList.mk [⟨0, "GPU", 0, true⟩, ⟨1, "GPU", 1, false⟩]) =
      DeviceList.fingerprint (fun _ s => s.length)
        (DeviceList.mk [⟨0, "TPU", 3, false⟩, ⟨1, "CPU", 2, true⟩]) :=
  fingerprint_depends_only_on_ids (fun _ s => s.length)
    (DeviceList.mk [⟨0, "GPU", 0, true⟩, ⟨1, "GPU", 1, false⟩])
    (DeviceList.mk [⟨0, "TPU", 3, false⟩, ⟨1, "CPU", 2, true⟩]) (by decide)

-- ============================================================================
-- Claim theorems: HloSharding flags and default shard semantics
-- ============================================================================

/-- C4 (amended): IsFullyReplicated of an HloSharding is true iff the wrapped
specification marks full replication, or the specification is tiled or
tile-maximal and the device list has exactly one device.  (Amended from the
claim: the constructor also treats a tiled single-device sharding as fully
replicated, not only a tile-maximal one.)  The right-hand side names the
specification constructors directly. -/
theorem isFullyReplicated_characterization (h : HloSharding) :
    h.IsFullyReplicated = true ↔
      (h.spec = XlaShardingSpec.replicated ∨
       (((∃ ta subgroup_types, h.spec = XlaShardingSpec.tiled ta subgroup_types) ∨
         h.spec = XlaShardingSpec.maximal ∨ h.spec = XlaShardingSpec.replicated) ∧
        h.devices.length = 1)) := by
  rcases h with ⟨devs, mk, spec⟩
  cases spec <;>
    simp [HloSharding.IsFullyReplicated, XlaShardingSpec.IsReplicated,
      XlaShardingSpec.IsTiled, XlaShardingSpec.IsTileMaximal]

/-- C4 counterexample: a tiled specification over a single device.  The
constructor computes IsFullyReplicated as true, but the claim formula, full
replication or tile-maximal with one device, is false there: a tiled
specification is neither replicated nor tile-maximal. -/
theorem isFullyReplicated_tiled_single_device :
    (HloSharding.mk [⟨0, "GPU", 0, true⟩] none
        (.tiled ⟨[1], [0]⟩ [])).IsFullyReplicated = true ∧
    ¬ ((XlaShardingSpec.tiled ⟨[1], [0]⟩ []).IsReplicated = true ∨
       ((XlaShardingSpec.tiled ⟨[1], [0]⟩ []).IsTileMaximal = true ∧
        ([⟨0, "GPU", 0, true⟩] : List Device).length = 1)) := by
  decide

/-- C2: evaluation of the code at a failing input.  For the replicated
sharding over two devices of which the second is not addressable, the
Disassemble and IndexDomains overloads that take no semantics argument
behave as the two-argument overloads with kAllShards, and differ from the
two-argument overloads with kAddressableShards: shards of the
non-addressable device are included by default, although sharding.h
documents kAddressableShards as the default. -/
theorem default_semantics_is_all_shards :
    (HloSharding.mk [⟨0, "GPU", 0, true⟩, ⟨1, "GPU", 1, false⟩] none
        .replicated).IndexDomainsDefault ⟨[4]⟩ =
      (HloSharding.mk [⟨0, "GPU", 0, true⟩, ⟨1, "GPU", 1, false⟩] none
        .replicated).IndexDomains ⟨[4]⟩ .kAllShards ∧
    (HloSharding.mk [⟨0, "GPU", 0, true⟩, ⟨1, "GPU", 1, false⟩] none
        .replicated).IndexDomainsDefault ⟨[4]⟩ ≠
      (HloSharding.mk [⟨0, "GPU", 0, true⟩, ⟨1, "GPU", 1, false⟩] none
        .replicated).IndexDomains ⟨[4]⟩ .kAddressableShards ∧
    (HloSharding.mk [⟨0, "GPU", 0, true⟩, ⟨1, "GPU", 1, false⟩] none
        .replicated).DisassembleDefault ⟨[4]⟩ =
      (HloSharding.mk [⟨0, "GPU", 0, true⟩, ⟨1, "GPU", 1, false⟩] none
        .replicated).Disassemble ⟨[4]⟩ .kAllShards ∧
    (HloSharding.mk [⟨0, "GPU", 0, true⟩, ⟨1, "GPU", 1, false⟩] none
        .replicated).DisassembleDefault ⟨[4]⟩ ≠
      (HloSharding.mk [⟨0, "GPU", 0, true⟩, ⟨1, "GPU", 1, false⟩] none
        .replicated).Disassemble ⟨[4]⟩ .kAddressableShards := by
  refine ⟨rfl, by decide, rfl, by decide⟩

-- ============================================================================
-- Helper lemmas for the fast-path and slow-path IndexDomains comparison
-- ============================================================================

lemma getD_replicate_none (n i : Nat) :
    (List.replicate n (none : Option IndexDomain)).getD i none = none := by
  rcases Nat.lt_or_ge i n with h | h
  · simp [List.getD_eq_getElem?_getD, List.getElem?_replicate, h]
  · simp [List.getD_eq_getElem?_getD, List.getElem?_replicate, Nat.not_lt.mpr h]

lemma scatterStep_length (entries : List Nat) (f : Nat → IndexDomain)
    (L : List Nat) (init : List (Option IndexDomain)) :
    (L.foldl (fun acc p => acc.set (entries.getD p 0) (some (f p))) init).length =
      init.length := by
  induction L generalizing init with
  | nil => rfl
  | cons p rest ih =>
      rw [List.foldl_cons, ih]
      exact List.length_set init _ _

lemma getD_set_self (l : List (Option IndexDomain)) (i : Nat) (v : Option IndexDomain)
    (h : i < l.length) : (l.set i v).getD i none = v := by
  rw [List.getD_eq_getElem?_getD]
  simp [List.getElem?_set_self, h]

lemma getD_set_ne (l : List (Option IndexDomain)) (i j : Nat) (v : Option IndexDomain)
    (h : i ≠ j) : (l.set i v).getD j none = l.getD j none := by
  rw [List.getD_eq_getElem?_getD, List.getElem?_set_ne h, ← List.getD_eq_getElem?_getD]

lemma scatter_vs_lastpos (entries : List Nat) (f : Nat → IndexDomain) (n : Nat) :
    ∀ N : Nat, (∀ p, p < N → entries.getD p 0 < n) → ∀ d, d < n →
      ((List.range N).foldl (fun acc p => acc.set (entries.getD p 0) (some (f p)))
          (List.replicate n none)).getD d none =
        Option.map f ((List.range N).foldl
          (fun acc p => if entries.getD p 0 = d then some p else acc) none) := by
  intro N
  induction N with
  | zero =>
      intro _ d _
      simp [getD_replicate_none]
  | succ N ih =>
      intro hb d hd
      have hb2 : ∀ p, p < N → entries.getD p 0 < n := fun p hp => hb p (by omega)
      rw [List.range_succ, List.foldl_append, List.foldl_append]
      simp only [List.foldl_cons, List.foldl_nil]
      have hlen : ((List.range N).foldl
          (fun acc p => acc.set (entries.getD p 0) (some (f p)))
          (List.replicate n (none : Option IndexDomain))).length = n := by
        rw [scatterStep_length]
        exact List.length_replicate n none
      by_cases he : entries.getD N 0 = d
      · rw [if_pos he, he, getD_set_self _ _ _ (by rw [hlen]; exact hd)]
        rfl
      · rw [if_neg he, getD_set_ne _ _ _ _ he]
        exact ih hb2 d hd

lemma lastpos_isSome (entries : List Nat) (d : Nat) :
    ∀ N : Nat, (∃ p, p < N ∧ entries.getD p 0 = d) →
      ((List.range N).foldl
        (fun acc p => if entries.getD p 0 = d then some p else acc) none).isSome := by
  intro N
  induction N with
  | zero =>
      rintro ⟨p, hp, _⟩
      omega
  | succ N ih =>
      rintro ⟨p, hp, hpd⟩
      rw [List.range_succ, List.foldl_append]
      simp only [List.foldl_cons, List.foldl_nil]
      by_cases he : entries.getD N 0 = d
      · rw [if_pos he]
        rfl
      · rw [if_neg he]
        refine ih ⟨p, ?_, hpd⟩
        rcases Nat.lt_succ_iff_lt_or_eq.mp hp with h | h
        · exact h
        · exact absurd (h ▸ hpd) he

-- ============================================================================
-- Claim theorem: fast path versus slow path of IndexDomains
-- ============================================================================

/-- C1: on every input where both paths are applicable, the fast path of
IndexDomains returns exactly the sequence of index domains the standalone
slow path returns, in the same order, under the same shard semantics.
Applicability per the claim: the wrapped specification is tiled, every
subgroup type is replicated, the tile assignment has one element per device
and the shape rank equals the tiled data rank.  The remaining hypotheses are
the consistency of the externally validated tiling specification: the
entries are the row-major flattening of the assignment array (their count is
the element count of the array) and they assign each device index exactly
once. -/
theorem indexDomains_fastPath_eq_slowPath
    (devs : List Device) (memk : Option String) (ta : TileAssignment)
    (subgroup_types : List XlaSubgroupType) (shape : Shape)
    (sems : SingleDeviceShardSemantics)
    (hsub : ∀ t ∈ subgroup_types, t = XlaSubgroupType.replicated)
    (hrank : shape.dims.length = ta.dims.length - subgroup_types.length)
    (hperm : List.Perm ta.entries (List.range devs.length))
    (hnum : ta.entries.length = ta.numElements) :
    ∃ doms,
      (HloSharding.mk devs memk (.tiled ta subgroup_types)).IndexDomains shape sems =
        CppResult.ok doms ∧
      IndexDomainsSlowPath (.tiled ta subgroup_types) devs shape sems =
        CppResult.ok doms := by
  have hlen : ta.entries.length = devs.length := by
    simpa using hperm.length_eq
  have hne : ta.numElements = devs.length := by
    rw [← hnum, hlen]
  have hbound : ∀ p, p < ta.entries.length → ta.entries.getD p 0 < devs.length := by
    intro p hp
    have hmem : ta.entries.getD p 0 ∈ ta.entries := by
      rw [List.getD_eq_getElem ta.entries 0 hp]
      exact List.getElem_mem hp
    exact List.mem_range.mp (hperm.mem_iff.mp hmem)
  have hexist : ∀ d, d < devs.length →
      ∃ p, p < ta.entries.length ∧ ta.entries.getD p 0 = d := by
    intro d hd
    have : d ∈ ta.entries := hperm.mem_iff.mpr (List.mem_range.mpr hd)
    obtain ⟨i, hi, hie⟩ := List.mem_iff_getElem.mp this
    exact ⟨i, hi, by rw [List.getD_eq_getElem ta.entries 0 hi, hie]⟩
  have hsome : ∀ d, d < devs.length → (lastPosOf ta.entries d).isSome := fun d hd =>
    lastpos_isSome ta.entries d ta.entries.length (hexist d hd)
  have hA : ∀ d, d < devs.length →
      (eachTileScatter ta shape (ta.dims.length - subgroup_types.length)
          devs.length).getD d none =
        Option.map (tileDomainAt ta shape (ta.dims.length - subgroup_types.length))
          (lastPosOf ta.entries d) := by
    intro d hd
    unfold eachTileScatter lastPosOf TileAssignment.numElements
    rw [show prodNat ta.dims = ta.entries.length from (hnum ▸ rfl)]
    exact scatter_vs_lastpos ta.entries _ devs.length ta.entries.length hbound d hd
  refine ⟨(List.range devs.length).filterMap (fun d =>
      if includeDevice sems (devs.getD d junkDevice) then
        slowDomainForDevice ta shape (ta.dims.length - subgroup_types.length) d
      else none), ?_, ?_⟩
  · -- fast path
    have hgss : (HloSharding.mk devs memk (.tiled ta subgroup_types)).GetShardShape shape =
        .ok ⟨(List.range shape.dims.length).map (fun i => shardSizeAt ta shape i)⟩ := by
      simp [HloSharding.GetShardShape, XlaShardingSpec.IsTileMaximal,
        XlaShardingSpec.IsManual, XlaShardingSpec.IsUnreduced,
        XlaShardingSpec.IsUnknown, XlaShardingSpec.TotalNumTiles,
        XlaShardingSpec.TiledDataRank, hne, hrank]
    simp only [HloSharding.IndexDomains]
    rw [if_neg (not_not_intro hsub), if_neg (not_not_intro hne),
      if_neg (not_not_intro hrank), hgss]
    have hguard : ∀ d ∈ List.range devs.length,
        includeDevice sems (devs.getD d junkDevice) = true →
        ((eachTileScatter ta shape (ta.dims.length - subgroup_types.length)
            devs.length).getD d none).isSome = true := by
      intro d hd _
      rw [hA d (List.mem_range.mp hd), Option.isSome_map']
      exact hsome d (List.mem_range.mp hd)
    rw [if_pos hguard]
    refine congrArg CppResult.ok (List.filterMap_congr ?_)
    intro d hd
    by_cases hinc : includeDevice sems (devs.getD d junkDevice)
    · rw [if_pos hinc, if_pos hinc, hA d (List.mem_range.mp hd)]
      rfl
    · rw [if_neg hinc, if_neg hinc]
  · -- slow path
    simp only [IndexDomainsSlowPath]
    have hguard : ∀ d ∈ List.range devs.length,
        includeDevice sems (devs.getD d junkDevice) = true →
        (slowDomainForDevice ta shape (ta.dims.length - subgroup_types.length)
          d).isSome = true := by
      intro d hd _
      unfold slowDomainForDevice
      rw [Option.isSome_map']
      exact hsome d (List.mem_range.mp hd)
    rw [if_pos hguard]

/-- C1 witness: the theorem applied to an uneven two-tile split of the
one-dimensional shape of size 5 across two devices, under both shard
semantics checked through the kAllShards instance. -/
theorem indexDomains_fastPath_eq_slowPath_witness :
    ∃ doms,
      (HloSharding.mk [⟨0, "GPU", 0, true⟩, ⟨1, "GPU", 1, false⟩] none
          (.tiled ⟨[2], [0, 1]⟩ [])).IndexDomains ⟨[5]⟩ .kAllShards =
        CppResult.ok doms ∧
      IndexDomainsSlowPath (.tiled ⟨[2], [0, 1]⟩ [])
          [⟨0, "GPU", 0, true⟩, ⟨1, "GPU", 1, false⟩] ⟨[5]⟩ .kAllShards =
        CppResult.ok doms :=
  indexDomains_fastPath_eq_slowPath
    [⟨0, "GPU", 0, true⟩, ⟨1, "GPU", 1, false⟩] none ⟨[2], [0, 1]⟩ [] ⟨[5]⟩
    .kAllShards (by decide) (by decide) (by decide) (by decide)

-- ============================================================================
-- General linearization property of ToDeviceList.  These lemmas establish
-- that for every MinorToMajor that passes verify and whose axis sizes are
-- all nonnegative, ToDeviceList emits exactly NumDevices device positions
-- forming a permutation of the range from 0 to NumDevices - 1.  This is the
-- property C3 claims for every verified ShardingParam; it holds once the
-- positivity of the axis sizes, which sharding_params.h documents as a check
-- of verify but the implementation omits, is restored as a hypothesis.
-- ============================================================================

lemma foldl_mul_init (l : List Int) : ∀ acc : Int,
    l.foldl (fun a b => a * b) acc = acc * prodInt l := by
  induction l with
  | nil => intro acc; simp [prodInt]
  | cons x rest ih =>
      intro acc
      show rest.foldl (fun a b => a * b) (acc * x) = acc * prodInt (x :: rest)
      rw [ih (acc * x)]
      show acc * x * prodInt rest = acc * rest.foldl (fun a b => a * b) (1 * x)
      rw [ih (1 * x)]
      ring

lemma prodInt_nonneg {l : List Int} (h : ∀ a ∈ l, 0 ≤ a) : 0 ≤ prodInt l := by
  induction l with
  | nil => simp [prodInt]
  | cons x rest ih =>
      have : prodInt (x :: rest) = x * prodInt rest := by
        show rest.foldl (fun a b => a * b) (1 * x) = x * prodInt rest
        rw [foldl_mul_init]
        ring
      rw [this]
      exact mul_nonneg (h x (by simp)) (ih (fun a ha => h a (by simp [ha])))

lemma prodInt_append_singleton (l : List Int) (a : Int) :
    prodInt (l ++ [a]) = prodInt l * a := by
  show (l ++ [a]).foldl (fun a b => a * b) 1 = prodInt l * a
  rw [List.foldl_append]
  rfl

lemma cumSizesAux_getD : ∀ (axes : List Int) (acc : Int) (k : Nat), k < axes.length →
    (cumSizesAux axes acc).getD k 0 = acc * prodInt (axes.take k) := by
  intro axes
  induction axes with
  | nil => intro acc k hk; simp at hk
  | cons s rest ih =>
      intro acc k hk
      cases k with
      | zero => simp [cumSizesAux, prodInt]
      | succ k =>
          show (cumSizesAux rest (acc * s)).getD k 0 = acc * prodInt ((s :: rest).take (k + 1))
          rw [ih (acc * s) k (by simp at hk; omega)]
          show acc * s * prodInt (rest.take k) = acc * prodInt (s :: rest.take k)
          have : prodInt (s :: rest.take k) = s * prodInt (rest.take k) := by
            show (rest.take k).foldl (fun a b => a * b) (1 * s) = s * prodInt (rest.take k)
            rw [foldl_mul_init]
            ring
          rw [this]
          ring

lemma take_succ_getD (l : List Int) (k : Nat) (hk : k < l.length) :
    l.take (k + 1) = l.take k ++ [l.getD k 0] := by
  rw [List.take_succ, List.getD_eq_getElem l 0 hk]
  simp [List.getElem?_eq_getElem hk]

lemma getD_mem_of_lt (l : List Int) (k : Nat) (hk : k < l.length) : l.getD k 0 ∈ l := by
  rw [List.getD_eq_getElem l 0 hk]
  exact List.getElem_mem hk

lemma coe_flatMap_multiset (l : List Int) (f : Int → List Int) :
    ((l.flatMap f : List Int) : Multiset Int) =
      (l : Multiset Int).bind (fun a => ((f a : List Int) : Multiset Int)) := by
  simp [Multiset.coe_bind]

lemma coe_flatMap_multiset_nat (l : List Nat) (f : Nat → List Int) :
    ((l.flatMap f : List Int) : Multiset Int) =
      (l : Multiset Nat).bind (fun a => ((f a : List Int) : Multiset Int)) := by
  simp [Multiset.coe_bind]

lemma flatMap_perm_congr (l : List Nat) (f g : Nat → List Int)
    (h : ∀ a ∈ l, List.Perm (f a) (g a)) : List.Perm (l.flatMap f) (l.flatMap g) := by
  rw [← Multiset.coe_eq_coe, coe_flatMap_multiset_nat, coe_flatMap_multiset_nat]
  exact Multiset.bind_congr (fun a ha => Multiset.coe_eq_coe.mpr (h a ha))

lemma flatMap_comm_perm (n1 n2 : Nat) (F : Nat → Nat → List Int) :
    List.Perm
      ((List.range n1).flatMap (fun i => (List.range n2).flatMap (fun j => F i j)))
      ((List.range n2).flatMap (fun j => (List.range n1).flatMap (fun i => F i j))) := by
  rw [← Multiset.coe_eq_coe, coe_flatMap_multiset_nat, coe_flatMap_multiset_nat]
  simp only [coe_flatMap_multiset_nat]
  exact Multiset.bind_bind _ _

lemma popRev_perm_congr (axes cums : List Int) {l1 l2 : List Int}
    (h : List.Perm l1 l2) : ∀ base,
    List.Perm (PopulateDevicesRev axes cums l1 base)
      (PopulateDevicesRev axes cums l2 base) := by
  induction h with
  | nil => intro _; exact List.Perm.refl _
  | cons x htail ih =>
      intro base
      show List.Perm
        ((List.range (axes.getD x.toNat 0).toNat).flatMap (fun i =>
          PopulateDevicesRev axes cums _ (base + (i : Int) * cums.getD x.toNat 0)))
        ((List.range (axes.getD x.toNat 0).toNat).flatMap (fun i =>
          PopulateDevicesRev axes cums _ (base + (i : Int) * cums.getD x.toNat 0)))
      exact flatMap_perm_congr _ _ _ (fun i _ => ih _)
  | swap x y l =>
      intro base
      show List.Perm
        ((List.range (axes.getD y.toNat 0).toNat).flatMap (fun i =>
          (List.range (axes.getD x.toNat 0).toNat).flatMap (fun j =>
            PopulateDevicesRev axes cums l
              (base + (i : Int) * cums.getD y.toNat 0 + (j : Int) * cums.getD x.toNat 0))))
        ((List.range (axes.getD x.toNat 0).toNat).flatMap (fun j =>
          (List.range (axes.getD y.toNat 0).toNat).flatMap (fun i =>
            PopulateDevicesRev axes cums l
              (base + (j : Int) * cums.getD x.toNat 0 + (i : Int) * cums.getD y.toNat 0))))
      have hR : ((List.range (axes.getD x.toNat 0).toNat).flatMap (fun j =>
          (List.range (axes.getD y.toNat 0).toNat).flatMap (fun i =>
            PopulateDevicesRev axes cums l
              (base + (j : Int) * cums.getD x.toNat 0 + (i : Int) * cums.getD y.toNat 0)))) =
          ((List.range (axes.getD x.toNat 0).toNat).flatMap (fun j =>
          (List.range (axes.getD y.toNat 0).toNat).flatMap (fun i =>
            PopulateDevicesRev axes cums l
              (base + (i : Int) * cums.getD y.toNat 0 + (j : Int) * cums.getD x.toNat 0)))) :=
        List.flatMap_congr (fun j _ => List.flatMap_congr (fun i _ =>
          congrArg (PopulateDevicesRev axes cums l) (by ring)))
      rw [hR]
      exact flatMap_comm_perm _ _ _
  | trans _ _ ih1 ih2 =>
      intro base
      exact (ih1 base).trans (ih2 base)

lemma flatMap_range_blocks (ckN : Nat) (base : Int) :
    ∀ sk : Nat,
      (List.range sk).flatMap (fun i =>
        (List.range ckN).map (fun x : Nat => base + (i : Int) * (ckN : Int) + (x : Int))) =
      (List.range (sk * ckN)).map (fun y : Nat => base + (y : Int)) := by
  intro sk
  induction sk with
  | zero => simp
  | succ sk ih =>
      rw [List.range_succ, List.flatMap_append, ih]
      simp only [List.flatMap_cons, List.flatMap_nil, List.append_nil]
      rw [Nat.succ_mul, List.range_add (sk * ckN) ckN, List.map_append]
      congr 1
      rw [List.map_map]
      refine List.map_congr_left fun x _ => ?_
      show base + (sk : Int) * (ckN : Int) + (x : Int) = base + ((sk * ckN + x : Nat) : Int)
      push_cast
      ring

lemma popRev_desc (axes : List Int) (hpos : ∀ a ∈ axes, 0 ≤ a) :
    ∀ k, k ≤ axes.length → ∀ base,
      PopulateDevicesRev axes (cumSizesAux axes 1) (descListInt k) base =
        (List.range (prodInt (axes.take k)).toNat).map (fun (i : Nat) => base + (i : Int)) := by
  intro k
  induction k with
  | zero =>
      intro _ base
      show [base] = (List.range (prodInt ([] : List Int)).toNat).map (fun (i : Nat) => base + (i : Int))
      simp [prodInt, List.range_succ]
  | succ k ih =>
      intro hk base
      have hklt : k < axes.length := by omega
      have hcum : (cumSizesAux axes 1).getD k 0 = prodInt (axes.take k) := by
        rw [cumSizesAux_getD axes 1 k hklt]; ring
      have hcknn : 0 ≤ prodInt (axes.take k) :=
        prodInt_nonneg (fun a ha => hpos a (List.mem_of_mem_take ha))
      have haknn : 0 ≤ axes.getD k 0 := hpos _ (getD_mem_of_lt axes k hklt)
      show (List.range (axes.getD ((k : Int)).toNat 0).toNat).flatMap (fun i =>
          PopulateDevicesRev axes (cumSizesAux axes 1) (descListInt k)
            (base + (i : Int) * (cumSizesAux axes 1).getD ((k : Int)).toNat 0)) = _
      rw [Int.toNat_ofNat, hcum]
      have hstep : ((List.range (axes.getD k 0).toNat).flatMap fun i =>
          PopulateDevicesRev axes (cumSizesAux axes 1) (descListInt k)
            (base + (i : Int) * prodInt (axes.take k))) =
          ((List.range (axes.getD k 0).toNat).flatMap fun i =>
            (List.range (prodInt (axes.take k)).toNat).map
              (fun x : Nat => base + (i : Int) * prodInt (axes.take k) + (x : Int))) :=
        List.flatMap_congr fun i _ => ih (by omega) _
      rw [hstep]
      have hcast : prodInt (axes.take k) = ((prodInt (axes.take k)).toNat : Int) :=
        (Int.toNat_of_nonneg hcknn).symm
      have hblocks := flatMap_range_blocks (prodInt (axes.take k)).toNat base
        (axes.getD k 0).toNat
      rw [show (fun (i : Nat) => (List.range (prodInt (axes.take k)).toNat).map
            (fun x : Nat => base + (i : Int) * prodInt (axes.take k) + (x : Int))) =
          (fun (i : Nat) => (List.range (prodInt (axes.take k)).toNat).map
            (fun x : Nat => base + (i : Int) * ((prodInt (axes.take k)).toNat : Int) + (x : Int)))
        from by rw [← hcast]]
      rw [hblocks]
      have hprod : prodInt (axes.take (k + 1)) = prodInt (axes.take k) * axes.getD k 0 := by
        rw [take_succ_getD axes k hklt, prodInt_append_singleton]
      have htn : (prodInt (axes.take (k + 1))).toNat =
          (axes.getD k 0).toNat * (prodInt (axes.take k)).toNat := by
        rw [hprod]
        rw [show prodInt (axes.take k) * axes.getD k 0 =
            (((axes.getD k 0).toNat * (prodInt (axes.take k)).toNat : Nat) : Int) from by
          push_cast
          rw [Int.toNat_of_nonneg hcknn, Int.toNat_of_nonneg haknn]
          ring]
        rw [Int.toNat_ofNat]
      rw [htn]

lemma descListInt_eq (k : Nat) :
    descListInt k = ((List.range k).map (fun (i : Nat) => (i : Int))).reverse := by
  induction k with
  | zero => rfl
  | succ k ih =>
      rw [List.range_succ, List.map_append, List.reverse_append]
      show (k : Int) :: descListInt k = _
      rw [ih]
      rfl

lemma verify_ok_facts (m : MinorToMajor) (hok : m.verify = Except.ok ()) :
    m.permutation.length = m.axis_sizes.length ∧ m.permutation.Nodup ∧
      ∀ i ∈ m.permutation, 0 ≤ i ∧ i < (m.axis_sizes.length : Int) := by
  unfold MinorToMajor.verify at hok
  by_cases h1 : m.permutation.length ≠ m.axis_sizes.length ∨ m.axis_sizes = []
  · rw [if_pos h1] at hok
    exact absurd hok (by simp)
  · rw [if_neg h1] at hok
    by_cases h2 : ¬ m.permutation.Nodup
    · rw [if_pos h2] at hok
      exact absurd hok (by simp)
    · rw [if_neg h2] at hok
      rcases hf : m.permutation.find?
          (fun i => decide (i < 0 ∨ (m.axis_sizes.length : Int) ≤ i)) with _ | i
      · refine ⟨not_ne_iff.mp (not_or.mp h1).1, not_not.mp h2, ?_⟩
        intro i hi
        have := List.find?_eq_none.mp hf i hi
        simp at this
        exact ⟨this.1, this.2⟩
      · rw [hf] at hok
        exact absurd hok (by simp)

lemma perm_reverse_desc (m : MinorToMajor)
    (hlen : m.permutation.length = m.axis_sizes.length)
    (hnodup : m.permutation.Nodup)
    (hrange : ∀ i ∈ m.permutation, 0 ≤ i ∧ i < (m.axis_sizes.length : Int)) :
    List.Perm m.permutation.reverse (descListInt m.axis_sizes.length) := by
  have hsub : m.permutation ⊆ (List.range m.axis_sizes.length).map (fun (i : Nat) => (i : Int)) := by
    intro i hi
    obtain ⟨h0, hlt⟩ := hrange i hi
    rw [List.mem_map]
    exact ⟨i.toNat, List.mem_range.mpr (by omega), by omega⟩
  have hperm : List.Perm m.permutation
      ((List.range m.axis_sizes.length).map (fun (i : Nat) => (i : Int))) :=
    (hnodup.subperm hsub).perm_of_length_le (by simp [hlen])
  rw [descListInt_eq]
  exact ((List.reverse_perm m.permutation).trans hperm).trans
    (List.reverse_perm _).symm

/-- Linearization property behind C3: for every MinorToMajor accepted by
verify whose axis sizes are all nonnegative (the check sharding_params.h
documents but the implementation omits), ToDeviceList emits exactly
NumDevices device positions and they are a permutation of the range from 0
to NumDevices - 1. -/
theorem toDeviceList_perm_of_nonneg_axes (m : MinorToMajor)
    (hok : m.verify = Except.ok ()) (hpos : ∀ a ∈ m.axis_sizes, 0 ≤ a) :
    ((m.ToDeviceList.length : Int) = m.NumDevices) ∧
      List.Perm m.ToDeviceList
        ((List.range m.NumDevices.toNat).map (fun (i : Nat) => (i : Int))) := by
  obtain ⟨hlen, hnodup, hrange⟩ := verify_ok_facts m hok
  have hrev := perm_reverse_desc m hlen hnodup hrange
  have hp := popRev_perm_congr m.axis_sizes m.cumSizes hrev 0
  have hdesc := popRev_desc m.axis_sizes hpos m.axis_sizes.length le_rfl 0
  rw [List.take_length] at hdesc
  have hNum : m.NumDevices = prodInt m.axis_sizes := rfl
  have hmain : List.Perm m.ToDeviceList
      ((List.range m.NumDevices.toNat).map (fun (i : Nat) => (i : Int))) := by
    have hfinal : PopulateDevicesRev m.axis_sizes m.cumSizes
        (descListInt m.axis_sizes.length) 0 =
        (List.range m.NumDevices.toNat).map (fun (i : Nat) => (i : Int)) := by
      show PopulateDevicesRev m.axis_sizes (cumSizesAux m.axis_sizes 1)
          (descListInt m.axis_sizes.length) 0 = _
      rw [hdesc, hNum]
      exact List.map_congr_left (fun x _ => by ring)
    rw [← hfinal]
    exact hp
  refine ⟨?_, hmain⟩
  rw [hmain.length_eq]
  simp [hNum, Int.toNat_of_nonneg (prodInt_nonneg hpos)]

/-- ShardingParam form of the linearization property: a ShardingParam whose
verify succeeds and whose axis sizes are nonnegative linearizes to exactly
NumDevices distinct device positions covering the range. -/
theorem verified_toDeviceList_perm (sp : ShardingParam)
    (hok : sp.verify = CppResult.ok ())
    (hpos : ∀ a ∈ sp.minor_to_major.axis_sizes, 0 ≤ a) :
    ((sp.minor_to_major.ToDeviceList.length : Int) = sp.NumDevices) ∧
      List.Perm sp.minor_to_major.ToDeviceList
        ((List.range sp.NumDevices.toNat).map (fun (i : Nat) => (i : Int))) := by
  have hmtm : sp.minor_to_major.verify = Except.ok () := by
    unfold ShardingParam.verify at hok
    rcases h : sp.minor_to_major.verify with e | u
    · rw [h] at hok
      exact absurd hok (by simp)
    · rfl
  have := toDeviceList_perm_of_nonneg_axes sp.minor_to_major hmtm hpos
  exact this

end xftcpp
